import Mathlib

/-!
Verification development for the applespi SPI keyboard/touchpad driver
(src/applespi.c).  The driver decodes 256-byte frames from the device and
feeds two Linux input devices: a keyboard device (EV_KEY events, routed
through the input core, which only passes an EV_KEY event when the reported
value differs from the key's currently recorded state and the key code is
set in the device's capability bitmap) and a touchpad device (multitouch
reports).

The shallow embedding below mirrors the C source:
  * `applespi_scancodes` / `applespi_controlcodes` are the driver's lookup
    tables (Linux KEY_* numeric values, e.g. KEY_A = 30).
  * `inputReportKey` models `input_report_key` together with the Linux input
    core's EV_KEY handling for the keyboard device: an event is delivered
    only for supported codes and only on a state change (this is the
    mechanism by which the driver's unconditional press/modifier reports
    become edge-triggered events).
  * `processKeyboard` is the PACKET_KEYBOARD branch of `applespi_got_data`
    (release loop over `last_keys_pressed`, press loop over the new codes,
    modifier loop over the 8 bits of the modifier byte, `input_sync`, and
    the `memcpy` that stores the new codes).
  * `report_tp_state` / `reportFingerData` are the touchpad path; the
    external slot assignment computed by the kernel helper
    `input_mt_assign_slots` is passed in as the `slots` parameter, and
    `input_mt_sync_frame` is modelled as the `TEvent.syncFrame` marker.
  * `applespi_got_data` dispatches on the 16-bit little-endian packet type
    at offset 0 of the raw 256-byte buffer, exactly as the C code does.
  * `applespi_sync_write_and_response_msg` / `applespi_sync_read_msg` are
    the SPI messages (ordered transfer lists) built by the two transport
    functions.
-/

set_option maxRecDepth 8000

/-- Scancode table `applespi_scancodes` from the source, with the Linux
KEY_* constants replaced by their numeric values (input-event-codes.h).
Length 83; index 0 and the other 0 entries mean "no key". -/
def applespi_scancodes : List Nat :=
  [0, 0, 0, 0,
   30, 48, 46, 32, 18, 33, 34, 35, 23, 36,
   37, 38, 50, 49, 24, 25, 16, 19, 31, 20,
   22, 47, 17, 45, 21, 44,
   2, 3, 4, 5, 6, 7, 8, 9, 10, 11,
   28, 1, 14, 15, 57, 12,
   13, 26, 27, 43, 0,
   39, 40, 41, 51, 52, 53,
   58,
   59, 60, 61, 62, 63, 64, 65, 66, 67,
   68, 87, 88, 0, 0, 0, 0, 0, 0, 0, 0, 0,
   106, 105, 108, 103]

/-- Modifier table `applespi_controlcodes` from the source (numeric KEY_*
values: LEFTCTRL, LEFTSHIFT, LEFTALT, LEFTMETA, 0, RIGHTSHIFT, RIGHTALT,
RIGHTMETA).  Bit 4 has no mapped key. -/
def applespi_controlcodes : List Nat :=
  [29, 42, 56, 125, 0, 54, 100, 126]

/-- Lookup of a raw key index in the scancode table (array access
`applespi_scancodes[c]`; callers must keep `c` below the table length for
the access to be defined in C — see the out-of-bounds theorem). -/
def scancodeOf (c : Nat) : Nat := applespi_scancodes.getD c 0

/-- Lookup in the modifier table (`applespi_controlcodes[i]`). -/
def controlcodeOf (i : Nat) : Nat := applespi_controlcodes.getD i 0

/-- Events observable on the keyboard input device: EV_KEY events with a
code and a pressed value, and the EV_SYN frame delimiter from
`input_sync`. -/
inductive KEvent where
  | key (code : Nat) (value : Bool)
  | syn
deriving DecidableEq, Repr

/-- Nonzero scancode values: the EV_KEY codes the probe function registers
for the keyboard device from `applespi_scancodes`. -/
def scKeys : Finset Nat := (applespi_scancodes.filter (fun k => k != 0)).toFinset

/-- Nonzero control codes registered from `applespi_controlcodes`. -/
def ctlKeys : Finset Nat := (applespi_controlcodes.filter (fun k => k != 0)).toFinset

/-- The keyboard device's EV_KEY capability set (`keybit`), as set up in
`applespi_probe`: every nonzero entry of the two tables. -/
def kbdSupported : Finset Nat := scKeys ∪ ctlKeys

/-- Linux input-core semantics of `input_report_key` on the keyboard
device: an EV_KEY event passes only if the code is in the capability set
and the reported value differs from the currently recorded key state; the
state is updated accordingly.  Returns the new key-down set and the
emitted events. -/
def inputReportKey (K : Finset Nat) (code : Nat) (value : Bool) :
    Finset Nat × List KEvent :=
  if code ∈ kbdSupported then
    if value then
      if code ∈ K then (K, []) else (insert code K, [KEvent.key code true])
    else
      if code ∈ K then (K.erase code, [KEvent.key code false]) else (K, [])
  else (K, [])

/-- Sequential execution of a list of `input_report_key` calls, threading
the input-core key state and concatenating the emitted events. -/
def reportSeq (K : Finset Nat) : List (Nat × Bool) → Finset Nat × List KEvent
  | [] => (K, [])
  | r :: rest =>
      let s := inputReportKey K r.1 r.2
      let s2 := reportSeq s.1 rest
      (s2.1, s.2 ++ s2.2)

/-- Inner loop of the release pass (lines 326-331): scan the 6 new codes
for an occurrence of the previously stored code `c`. -/
def stillPressed (c : Nat) (keys : List Nat) : Bool := keys.any (fun x => x == c)

/-- Indices used to read `applespi_scancodes` in the release loop: for each
stored previous code that no longer occurs among the new codes, the C code
evaluates `applespi_scancodes[last_keys_pressed[i]]` with no bounds
check. -/
def releaseAccesses (last keys : List Nat) : List Nat :=
  last.filter (fun c => !stillPressed c keys)

/-- Indices used to read `applespi_scancodes` in the press loop: guarded by
`keys_pressed[i] < sizeof(applespi_scancodes) && keys_pressed[i] > 0`. -/
def pressAccesses (keys : List Nat) : List Nat :=
  keys.filter (fun c => decide (c < applespi_scancodes.length) && decide (0 < c))

/-- All raw indices with which one keyboard frame reads the scancode table,
given the stored previous codes and the new codes. -/
def kbdScancodeAccesses (last keys : List Nat) : List Nat :=
  releaseAccesses last keys ++ pressAccesses keys

/-- Report requests issued by the release loop (value 0). -/
def releaseReqs (last keys : List Nat) : List (Nat × Bool) :=
  (releaseAccesses last keys).map (fun c => (scancodeOf c, false))

/-- Report requests issued by the press loop (value 1). -/
def pressReqs (keys : List Nat) : List (Nat × Bool) :=
  (pressAccesses keys).map (fun c => (scancodeOf c, true))

/-- Report requests issued by the modifier loop: for each of the 8 bits of
the modifier byte, report `applespi_controlcodes[i]` with the bit's
value. -/
def modReqs (mods : Nat) : List (Nat × Bool) :=
  (List.range 8).map (fun i => (controlcodeOf i, mods.testBit i))

/-- State carried across keyboard frames: the input core's key-down set for
the keyboard device and the driver's `last_keys_pressed` array. -/
structure KbState where
  key : Finset Nat
  last : List Nat
deriving DecidableEq

/-- The PACKET_KEYBOARD branch of `applespi_got_data`: release loop, press
loop, modifier loop, `input_sync`, then store the new codes into
`last_keys_pressed`. -/
def processKeyboard (st : KbState) (keys : List Nat) (mods : Nat) :
    KbState × List KEvent :=
  let r1 := reportSeq st.key (releaseReqs st.last keys)
  let r2 := reportSeq r1.1 (pressReqs keys)
  let r3 := reportSeq r2.1 (modReqs mods)
  (⟨r3.1, keys⟩, r1.2 ++ r2.2 ++ r3.2 ++ [KEvent.syn])

/-- Key-down set corresponding to a stored code array: the nonzero
scancodes of its entries (out-of-table entries map to no key). -/
def kbdKeys (last : List Nat) : Finset Nat :=
  ((last.map scancodeOf).filter (fun k => k != 0)).toFinset

/-- Key-down set corresponding to a modifier byte: the nonzero control
codes of its set bits. -/
def modKeys (mods : Nat) : Finset Nat :=
  ((((List.range 8).filter (fun i => mods.testBit i)).map controlcodeOf).filter
    (fun k => k != 0)).toFinset

/-- Little-endian 16-bit field at byte offset `off` of a raw buffer. -/
def le16 (buf : List Nat) (off : Nat) : Nat :=
  buf.getD off 0 + 256 * buf.getD (off + 1) 0

/-- Packet type tag: the u16 at offset 0 of the 256-byte buffer. -/
def packetType (buf : List Nat) : Nat := le16 buf 0

/-- PACKET_KEYBOARD tag. -/
def PACKET_KEYBOARD : Nat := 288

/-- PACKET_TOUCHPAD tag. -/
def PACKET_TOUCHPAD : Nat := 544

/-- PACKET_NOTHING tag. -/
def PACKET_NOTHING : Nat := 53312

/-- The `keys_pressed[6]` field of `struct keyboard_protocol` (bytes
19..24 of the frame). -/
def kbKeysOf (buf : List Nat) : List Nat :=
  [buf.getD 19 0, buf.getD 20 0, buf.getD 21 0,
   buf.getD 22 0, buf.getD 23 0, buf.getD 24 0]

/-- The `modifiers` byte of `struct keyboard_protocol` (byte 17). -/
def kbModsOf (buf : List Nat) : Nat := buf.getD 17 0

/-- One `struct tp_finger` (14 little-endian u16 fields, 28 bytes). -/
structure TPFinger where
  origin : Nat
  abs_x : Nat
  abs_y : Nat
  rel_x : Nat
  rel_y : Nat
  tool_major : Nat
  tool_minor : Nat
  orientation : Nat
  touch_major : Nat
  touch_minor : Nat
  unused0 : Nat
  unused1 : Nat
  pressure : Nat
  multi : Nat
deriving DecidableEq, Repr, Inhabited

/-- Decode finger slot `i` of `struct touchpad_protocol`: the finger array
starts at byte offset 64 and each finger is 28 bytes. -/
def decodeFinger (buf : List Nat) (i : Nat) : TPFinger :=
  let base := 64 + 28 * i
  { origin := le16 buf base
    abs_x := le16 buf (base + 2)
    abs_y := le16 buf (base + 4)
    rel_x := le16 buf (base + 6)
    rel_y := le16 buf (base + 8)
    tool_major := le16 buf (base + 10)
    tool_minor := le16 buf (base + 12)
    orientation := le16 buf (base + 14)
    touch_major := le16 buf (base + 16)
    touch_minor := le16 buf (base + 18)
    unused0 := le16 buf (base + 20)
    unused1 := le16 buf (base + 22)
    pressure := le16 buf (base + 24)
    multi := le16 buf (base + 26) }

/-- The 6 finger slots of a touchpad frame, in slot order. -/
def tpFingers (buf : List Nat) : List TPFinger :=
  (List.range 6).map (decodeFinger buf)

/-- The `clicked` byte of `struct touchpad_protocol` (byte 17). -/
def tpClicked (buf : List Nat) : Nat := buf.getD 17 0

/-- Sign-extension helper `raw2int`: interpret a 16-bit little-endian value
as a signed integer. -/
def raw2int (x : Nat) : Int :=
  if x < 32768 then (x : Int) else (x : Int) - 65536

/-- MAX_FINGER_ORIENTATION constant. -/
def MAX_FINGER_ORIENTATION : Int := 16384

/-- Y_MIN constant. -/
def Y_MIN : Int := -203

/-- Y_MAX constant. -/
def Y_MAX : Int := 6803

/-- ABS axis code ABS_MT_TOUCH_MAJOR. -/
def ABS_MT_TOUCH_MAJOR : Nat := 48

/-- ABS axis code ABS_MT_TOUCH_MINOR. -/
def ABS_MT_TOUCH_MINOR : Nat := 49

/-- ABS axis code ABS_MT_WIDTH_MAJOR. -/
def ABS_MT_WIDTH_MAJOR : Nat := 50

/-- ABS axis code ABS_MT_WIDTH_MINOR. -/
def ABS_MT_WIDTH_MINOR : Nat := 51

/-- ABS axis code ABS_MT_ORIENTATION. -/
def ABS_MT_ORIENTATION : Nat := 52

/-- ABS axis code ABS_MT_POSITION_X. -/
def ABS_MT_POSITION_X : Nat := 53

/-- ABS axis code ABS_MT_POSITION_Y. -/
def ABS_MT_POSITION_Y : Nat := 54

/-- Events observable on the touchpad input device. -/
inductive TEvent where
  | mtSlot (slot : Int)
  | toolFinger (active : Bool)
  | abs (axis : Nat) (value : Int)
  | syncFrame
  | btnLeft (value : Nat)
  | syn
deriving DecidableEq, Repr

/-- Embedding of `report_finger_data`: the reports made for one contact, in
source order (`input_mt_slot`, `input_mt_report_slot_state`, then the six
`input_report_abs` calls).  Note the C code reports no pressure axis. -/
def reportFingerData (slot : Int) (pos : Int × Int) (f : TPFinger) : List TEvent :=
  [TEvent.mtSlot slot,
   TEvent.toolFinger true,
   TEvent.abs ABS_MT_TOUCH_MAJOR (2 * raw2int f.touch_major),
   TEvent.abs ABS_MT_TOUCH_MINOR (2 * raw2int f.touch_minor),
   TEvent.abs ABS_MT_WIDTH_MAJOR (2 * raw2int f.tool_major),
   TEvent.abs ABS_MT_WIDTH_MINOR (2 * raw2int f.tool_minor),
   TEvent.abs ABS_MT_ORIENTATION (MAX_FINGER_ORIENTATION - raw2int f.orientation),
   TEvent.abs ABS_MT_POSITION_X pos.1,
   TEvent.abs ABS_MT_POSITION_Y pos.2]

/-- Embedding of `report_tp_state`: collect the positions of the active
fingers (touch_major nonzero) into the compacted `pos` array, then for each
compacted index `i < n` report finger data using `slots[i]`, `pos[i]` and —
exactly as the C code does — the raw finger record `t->fingers[i]` indexed
by the compacted index; finally `input_mt_sync_frame`, the BTN_LEFT report
of the clicked byte, and `input_sync`.  The slot assignment produced by the
external kernel helper `input_mt_assign_slots` is the `slots` argument. -/
def report_tp_state (slots : List Int) (buf : List Nat) : List TEvent :=
  let fingers := tpFingers buf
  let active := fingers.filter (fun f => !(raw2int f.touch_major == 0))
  let n := active.length
  let pos := active.map (fun f => (raw2int f.abs_x, Y_MIN + Y_MAX - raw2int f.abs_y))
  ((List.range n).map (fun i =>
      reportFingerData (slots.getD i 0) (pos.getD i (0, 0)) (fingers.getD i default))).flatten
    ++ [TEvent.syncFrame, TEvent.btnLeft (tpClicked buf), TEvent.syn]

/-- Embedding of `applespi_got_data`: dispatch on the 16-bit packet type of
the received 256-byte buffer.  PACKET_NOTHING returns immediately;
PACKET_KEYBOARD runs the keyboard diff; PACKET_TOUCHPAD runs the touchpad
report; any other tag does nothing.  Returns the new keyboard state, the
keyboard-device events and the touchpad-device events. -/
def applespi_got_data (slots : List Int) (st : KbState) (buf : List Nat) :
    KbState × List KEvent × List TEvent :=
  if packetType buf = PACKET_NOTHING then (st, [], [])
  else if packetType buf = PACKET_KEYBOARD then
    let r := processKeyboard st (kbKeysOf buf) (kbModsOf buf)
    (r.1, r.2, [])
  else if packetType buf = PACKET_TOUCHPAD then
    (st, [], report_tp_state slots buf)
  else (st, [], [])

/-- One SPI transfer as configured by the driver: direction (`tx` true for
a transmit from `tx_buffer`, false for a receive), the buffer used (0 for
`tx_buffer`, 1 for `rx_buffer`), length, `cs_change`, and clock rate. -/
structure SpiTransfer where
  tx : Bool
  buf : Nat
  len : Nat
  cs_change : Bool
  speed_hz : Nat
deriving DecidableEq, Repr, Inhabited

/-- The SPI message built by `applespi_sync_write_and_response`: transfers
t1 (256-byte write from tx_buffer), t2 (4-byte read into rx_buffer), t3
(256-byte read into rx_buffer), added to one message in this order. -/
def applespi_sync_write_and_response_msg : List SpiTransfer :=
  [{ tx := true, buf := 0, len := 256, cs_change := true, speed_hz := 400000 },
   { tx := false, buf := 1, len := 4, cs_change := true, speed_hz := 400000 },
   { tx := false, buf := 1, len := 256, cs_change := false, speed_hz := 400000 }]

/-- The SPI message built by `applespi_sync_read`: a single 256-byte read
into rx_buffer. -/
def applespi_sync_read_msg : List SpiTransfer :=
  [{ tx := false, buf := 1, len := 256, cs_change := false, speed_hz := 400000 }]

/-! Basic facts about the lookup tables and the derived key sets. -/

lemma applespi_scancodes_length : applespi_scancodes.length = 83 := rfl

lemma zero_not_supported : (0 : Nat) ∉ kbdSupported := by decide

lemma getD_mem_of_lt {l : List Nat} {n : Nat} (h : n < l.length) (d : Nat) :
    l.getD n d ∈ l := by
  induction l generalizing n with
  | nil => simp at h
  | cons a t ih =>
    cases n with
    | zero => simp [List.getD]
    | succ n =>
      have := ih (n := n) (by simpa using h)
      simp [List.getD] at this ⊢
      right
      simpa [List.getD] using this

lemma getD_eq_of_ge {l : List Nat} {n : Nat} (h : l.length ≤ n) (d : Nat) :
    l.getD n d = d := by
  induction l generalizing n with
  | nil => simp [List.getD]
  | cons a t ih =>
    cases n with
    | zero => simp at h
    | succ n => simpa [List.getD] using ih (by simpa using h)

lemma scancodeOf_eq_zero_of_ge {c : Nat} (h : applespi_scancodes.length ≤ c) :
    scancodeOf c = 0 := getD_eq_of_ge h 0

lemma scancodeOf_pos_of_ne_zero {c : Nat} (h : scancodeOf c ≠ 0) : 0 < c := by
  rcases Nat.eq_zero_or_pos c with h0 | h0
  · subst h0; exact absurd rfl h
  · exact h0

lemma scancodeOf_lt_of_ne_zero {c : Nat} (h : scancodeOf c ≠ 0) :
    c < applespi_scancodes.length := by
  by_contra hc
  exact h (scancodeOf_eq_zero_of_ge (Nat.le_of_not_lt hc))

lemma scancodeOf_mem_scKeys {c : Nat} (hc : c < applespi_scancodes.length)
    (h0 : scancodeOf c ≠ 0) : scancodeOf c ∈ scKeys := by
  have hmem : scancodeOf c ∈ applespi_scancodes := getD_mem_of_lt hc 0
  simp only [scKeys, List.mem_toFinset, List.mem_filter]
  exact ⟨hmem, by simpa [bne_iff_ne] using h0⟩

lemma scancodeOf_mem_supported {c : Nat} (h0 : scancodeOf c ≠ 0) :
    scancodeOf c ∈ kbdSupported :=
  Finset.mem_union_left _ (scancodeOf_mem_scKeys (scancodeOf_lt_of_ne_zero h0) h0)

lemma sc_inj : ∀ c1 < applespi_scancodes.length, ∀ c2 < applespi_scancodes.length,
    scancodeOf c1 = scancodeOf c2 → scancodeOf c1 ≠ 0 → c1 = c2 := by decide

lemma ctl_inj : ∀ i < 8, ∀ j < 8,
    controlcodeOf i = controlcodeOf j → controlcodeOf i ≠ 0 → i = j := by decide

lemma ctl_mem_supported : ∀ i < 8, controlcodeOf i ≠ 0 →
    controlcodeOf i ∈ kbdSupported := by decide

lemma scKeys_nonzero : ∀ k ∈ scKeys, k ≠ 0 := by decide

lemma sc_disjoint_ctl : ∀ k ∈ scKeys, k ∉ ctlKeys := by decide

lemma ctl_values : ∀ i < 8, controlcodeOf i = 0 ∨ controlcodeOf i ∈ ctlKeys := by decide

lemma mem_kbdKeys {k : Nat} {l : List Nat} :
    k ∈ kbdKeys l ↔ (∃ c ∈ l, scancodeOf c = k) ∧ k ≠ 0 := by
  simp [kbdKeys, List.mem_filter, List.mem_map, bne_iff_ne]

lemma mem_modKeys {k m : Nat} :
    k ∈ modKeys m ↔ (∃ i, i < 8 ∧ m.testBit i ∧ controlcodeOf i = k) ∧ k ≠ 0 := by
  simp only [modKeys, List.mem_toFinset, List.mem_filter, List.mem_map, List.mem_range,
    bne_iff_ne, ne_eq]
  tauto

lemma kbdKeys_sub_scKeys {k : Nat} {l : List Nat} (h : k ∈ kbdKeys l) : k ∈ scKeys := by
  rcases mem_kbdKeys.mp h with ⟨⟨c, _, hsc⟩, h0⟩
  subst hsc
  exact scancodeOf_mem_scKeys (scancodeOf_lt_of_ne_zero h0) h0

lemma modKeys_sub_ctlKeys {k m : Nat} (h : k ∈ modKeys m) : k ∈ ctlKeys := by
  rcases mem_modKeys.mp h with ⟨⟨i, hi, _, hctl⟩, h0⟩
  subst hctl
  rcases ctl_values i hi with h' | h'
  · exact absurd h' h0
  · exact h'

lemma stillPressed_iff {c : Nat} {keys : List Nat} :
    stillPressed c keys = true ↔ c ∈ keys := by
  simp [stillPressed, List.any_eq_true, beq_iff_eq]

/-! Generic lemmas about sequences of `input_report_key` calls. -/

lemma reportSeq_events_shape (reqs : List (Nat × Bool)) :
    ∀ (K : Finset Nat), ∀ e ∈ (reportSeq K reqs).2, ∃ k v, e = KEvent.key k v := by
  induction reqs with
  | nil => intro K e he; simp [reportSeq] at he
  | cons r rest ih =>
    intro K e he
    simp only [reportSeq, List.mem_append] at he
    rcases he with he | he
    · revert he
      unfold inputReportKey
      split_ifs <;> intro he <;> simp at he <;> exact ⟨_, _, he⟩
    · exact ih _ e he

lemma inputReportKey_true_emit {K : Finset Nat} {c : Nat}
    (hs : c ∈ kbdSupported) (hk : c ∉ K) :
    inputReportKey K c true = (insert c K, [KEvent.key c true]) := by
  simp [inputReportKey, hs, hk]

lemma inputReportKey_true_skip {K : Finset Nat} {c : Nat}
    (hs : c ∈ kbdSupported) (hk : c ∈ K) :
    inputReportKey K c true = (K, []) := by
  simp [inputReportKey, hs, hk]

lemma inputReportKey_false_emit {K : Finset Nat} {c : Nat}
    (hs : c ∈ kbdSupported) (hk : c ∈ K) :
    inputReportKey K c false = (K.erase c, [KEvent.key c false]) := by
  simp [inputReportKey, hs, hk]

lemma inputReportKey_false_skip {K : Finset Nat} {c : Nat}
    (hs : c ∈ kbdSupported) (hk : c ∉ K) :
    inputReportKey K c false = (K, []) := by
  simp [inputReportKey, hs, hk]

lemma inputReportKey_unsupported {K : Finset Nat} {c : Nat} (v : Bool)
    (hs : c ∉ kbdSupported) :
    inputReportKey K c v = (K, []) := by
  simp [inputReportKey, hs]

lemma reportSeq_cons (K : Finset Nat) (r : Nat × Bool) (rest : List (Nat × Bool)) :
    reportSeq K (r :: rest) =
      ((reportSeq (inputReportKey K r.1 r.2).1 rest).1,
        (inputReportKey K r.1 r.2).2 ++ (reportSeq (inputReportKey K r.1 r.2).1 rest).2) :=
  rfl

lemma reportSeq_false_mem (l : List Nat) :
    ∀ (K : Finset Nat) (k : Nat) (v : Bool),
      KEvent.key k v ∈ (reportSeq K (l.map fun c => (c, false))).2 ↔
        v = false ∧ k ∈ kbdSupported ∧ k ∈ K ∧ k ∈ l := by
  induction l with
  | nil => intro K k v; simp [reportSeq]
  | cons c rest ih =>
    intro K k v
    rw [List.map_cons, reportSeq_cons]
    by_cases hs : c ∈ kbdSupported
    · by_cases hk : c ∈ K
      · rw [inputReportKey_false_emit hs hk]
        simp only [List.mem_append, List.mem_singleton, List.mem_cons, ih,
          KEvent.key.injEq, Finset.mem_erase, List.not_mem_nil, or_false]
        constructor
        · rintro (⟨rfl, rfl⟩ | ⟨hv, hsup, ⟨hne, hK⟩, hr⟩)
          · exact ⟨rfl, hs, hk, Or.inl rfl⟩
          · exact ⟨hv, hsup, hK, Or.inr hr⟩
        · rintro ⟨rfl, hsup, hK, (rfl | hr)⟩
          · exact Or.inl ⟨rfl, rfl⟩
          · by_cases hkc : k = c
            · subst hkc; exact Or.inl ⟨rfl, rfl⟩
            · exact Or.inr ⟨rfl, hsup, ⟨hkc, hK⟩, hr⟩
      · rw [inputReportKey_false_skip hs hk]
        simp only [List.nil_append, ih, List.mem_cons]
        constructor
        · rintro ⟨hv, hsup, hK, hr⟩
          exact ⟨hv, hsup, hK, Or.inr hr⟩
        · rintro ⟨rfl, hsup, hK, (rfl | hr)⟩
          · exact absurd hK hk
          · exact ⟨rfl, hsup, hK, hr⟩
    · rw [inputReportKey_unsupported false hs]
      simp only [List.nil_append, ih, List.mem_cons]
      constructor
      · rintro ⟨hv, hsup, hK, hr⟩
        exact ⟨hv, hsup, hK, Or.inr hr⟩
      · rintro ⟨rfl, hsup, hK, (rfl | hr)⟩
        · exact absurd hsup hs
        · exact ⟨rfl, hsup, hK, hr⟩

lemma inputReportKey_mem_of_ne {K : Finset Nat} {c x : Nat} (v : Bool) (hne : x ≠ c) :
    x ∈ (inputReportKey K c v).1 ↔ x ∈ K := by
  unfold inputReportKey
  split_ifs <;> simp [Finset.mem_insert, Finset.mem_erase, hne]

lemma inputReportKey_mem_self {K : Finset Nat} {c : Nat} (b : Bool)
    (hs : c ∈ kbdSupported) :
    c ∈ (inputReportKey K c b).1 ↔ b = true := by
  unfold inputReportKey
  by_cases hk : c ∈ K <;> cases b <;> simp [hs, hk, Finset.mem_erase]

lemma reportSeq_false_key (l : List Nat) :
    ∀ (K : Finset Nat) (x : Nat),
      x ∈ (reportSeq K (l.map fun c => (c, false))).1 ↔
        x ∈ K ∧ ¬(x ∈ l ∧ x ∈ kbdSupported) := by
  induction l with
  | nil => intro K x; simp [reportSeq]
  | cons c rest ih =>
    intro K x
    rw [List.map_cons, reportSeq_cons]
    by_cases hs : c ∈ kbdSupported
    · by_cases hk : c ∈ K
      · rw [inputReportKey_false_emit hs hk]
        simp only [ih, Finset.mem_erase, List.mem_cons]
        constructor
        · rintro ⟨⟨hne, hK⟩, hn⟩
          exact ⟨hK, fun h => h.1.elim (fun e => hne e) (fun m => hn ⟨m, h.2⟩)⟩
        · rintro ⟨hK, hn⟩
          refine ⟨⟨?_, hK⟩, fun h => hn ⟨Or.inr h.1, h.2⟩⟩
          rintro rfl
          exact hn ⟨Or.inl rfl, hs⟩
      · rw [inputReportKey_false_skip hs hk]
        simp only [ih, List.mem_cons]
        constructor
        · rintro ⟨hK, hn⟩
          refine ⟨hK, fun h => ?_⟩
          rcases h.1 with rfl | hm
          · exact hk hK
          · exact hn ⟨hm, h.2⟩
        · rintro ⟨hK, hn⟩
          exact ⟨hK, fun h => hn ⟨Or.inr h.1, h.2⟩⟩
    · rw [inputReportKey_unsupported false hs]
      simp only [ih, List.mem_cons]
      constructor
      · rintro ⟨hK, hn⟩
        refine ⟨hK, fun h => ?_⟩
        rcases h.1 with rfl | hm
        · exact hs h.2
        · exact hn ⟨hm, h.2⟩
      · rintro ⟨hK, hn⟩
        exact ⟨hK, fun h => hn ⟨Or.inr h.1, h.2⟩⟩

lemma reportSeq_true_mem (l : List Nat) :
    ∀ (K : Finset Nat) (k : Nat) (v : Bool),
      KEvent.key k v ∈ (reportSeq K (l.map fun c => (c, true))).2 ↔
        v = true ∧ k ∈ kbdSupported ∧ k ∉ K ∧ k ∈ l := by
  induction l with
  | nil => intro K k v; simp [reportSeq]
  | cons c rest ih =>
    intro K k v
    rw [List.map_cons, reportSeq_cons]
    by_cases hs : c ∈ kbdSupported
    · by_cases hk : c ∈ K
      · rw [inputReportKey_true_skip hs hk]
        simp only [List.nil_append, ih, List.mem_cons]
        constructor
        · rintro ⟨hv, hsup, hK, hr⟩
          exact ⟨hv, hsup, hK, Or.inr hr⟩
        · rintro ⟨rfl, hsup, hK, (rfl | hr)⟩
          · exact absurd hk hK
          · exact ⟨rfl, hsup, hK, hr⟩
      · rw [inputReportKey_true_emit hs hk]
        simp only [List.mem_append, List.mem_cons, ih, KEvent.key.injEq,
          Finset.mem_insert, List.not_mem_nil, or_false]
        constructor
        · rintro (⟨rfl, rfl⟩ | ⟨hv, hsup, hK, hr⟩)
          · exact ⟨rfl, hs, hk, Or.inl rfl⟩
          · exact ⟨hv, hsup, fun h => hK (Or.inr h), Or.inr hr⟩
        · rintro ⟨rfl, hsup, hK, (rfl | hr)⟩
          · exact Or.inl ⟨rfl, rfl⟩
          · by_cases hkc : k = c
            · subst hkc
              exact Or.inl ⟨rfl, rfl⟩
            · exact Or.inr ⟨rfl, hsup, fun h => h.elim hkc hK, hr⟩
    · rw [inputReportKey_unsupported true hs]
      simp only [List.nil_append, ih, List.mem_cons]
      constructor
      · rintro ⟨hv, hsup, hK, hr⟩
        exact ⟨hv, hsup, hK, Or.inr hr⟩
      · rintro ⟨rfl, hsup, hK, (rfl | hr)⟩
        · exact absurd hsup hs
        · exact ⟨rfl, hsup, hK, hr⟩

lemma reportSeq_true_key (l : List Nat) :
    ∀ (K : Finset Nat) (x : Nat),
      x ∈ (reportSeq K (l.map fun c => (c, true))).1 ↔
        x ∈ K ∨ (x ∈ l ∧ x ∈ kbdSupported) := by
  induction l with
  | nil => intro K x; simp [reportSeq]
  | cons c rest ih =>
    intro K x
    rw [List.map_cons, reportSeq_cons]
    by_cases hs : c ∈ kbdSupported
    · by_cases hk : c ∈ K
      · rw [inputReportKey_true_skip hs hk]
        simp only [ih, List.mem_cons]
        constructor
        · rintro (hK | ⟨hm, hsup⟩)
          · exact Or.inl hK
          · exact Or.inr ⟨Or.inr hm, hsup⟩
        · rintro (hK | ⟨(rfl | hm), hsup⟩)
          · exact Or.inl hK
          · exact Or.inl hk
          · exact Or.inr ⟨hm, hsup⟩
      · rw [inputReportKey_true_emit hs hk]
        simp only [ih, Finset.mem_insert, List.mem_cons]
        constructor
        · rintro ((rfl | hK) | ⟨hm, hsup⟩)
          · exact Or.inr ⟨Or.inl rfl, hs⟩
          · exact Or.inl hK
          · exact Or.inr ⟨Or.inr hm, hsup⟩
        · rintro (hK | ⟨(rfl | hm), hsup⟩)
          · exact Or.inl (Or.inr hK)
          · exact Or.inl (Or.inl rfl)
          · exact Or.inr ⟨hm, hsup⟩
    · rw [inputReportKey_unsupported true hs]
      simp only [ih, List.mem_cons]
      constructor
      · rintro (hK | ⟨hm, hsup⟩)
        · exact Or.inl hK
        · exact Or.inr ⟨Or.inr hm, hsup⟩
      · rintro (hK | ⟨(rfl | hm), hsup⟩)
        · exact Or.inl hK
        · exact absurd hsup hs
        · exact Or.inr ⟨hm, hsup⟩

lemma reportSeq_true_count_zero (l : List Nat) :
    ∀ (K : Finset Nat) (k : Nat), k ∈ K →
      (reportSeq K (l.map fun c => (c, true))).2.count (KEvent.key k true) = 0 := by
  intro K k hk
  refine List.count_eq_zero.mpr (fun hmem => ?_)
  exact ((reportSeq_true_mem l K k true).mp hmem).2.2.1 hk

lemma reportSeq_true_count (l : List Nat) :
    ∀ (K : Finset Nat) (k : Nat),
      (reportSeq K (l.map fun c => (c, true))).2.count (KEvent.key k true) ≤ 1 := by
  induction l with
  | nil => intro K k; simp [reportSeq]
  | cons c rest ih =>
    intro K k
    rw [List.map_cons, reportSeq_cons]
    dsimp only
    by_cases hs : c ∈ kbdSupported
    · by_cases hk : c ∈ K
      · rw [inputReportKey_true_skip hs hk]
        dsimp only
        simpa using ih K k
      · rw [inputReportKey_true_emit hs hk]
        dsimp only
        rw [List.count_append]
        by_cases hkc : k = c
        · subst hkc
          have h0 := reportSeq_true_count_zero rest (insert k K) k (Finset.mem_insert_self k K)
          simp [h0]
        · have h1 : List.count (KEvent.key k true) [KEvent.key c true] = 0 :=
            List.count_eq_zero.mpr (by simp [hkc])
          rw [h1]
          simpa using ih (insert c K) k
    · rw [inputReportKey_unsupported true hs]
      dsimp only
      simpa using ih K k

lemma reportSeq_key_not_req (reqs : List (Nat × Bool)) :
    ∀ (K : Finset Nat) (x : Nat), x ∉ reqs.map Prod.fst →
      (x ∈ (reportSeq K reqs).1 ↔ x ∈ K) := by
  induction reqs with
  | nil => intro K x _; simp [reportSeq]
  | cons r rest ih =>
    intro K x hx
    rw [List.map_cons, List.mem_cons] at hx
    push_neg at hx
    rw [reportSeq_cons]
    rw [ih _ x hx.2, inputReportKey_mem_of_ne r.2 hx.1]

lemma reportSeq_key_not_supported (reqs : List (Nat × Bool)) :
    ∀ (K : Finset Nat) (x : Nat), x ∉ kbdSupported →
      (x ∈ (reportSeq K reqs).1 ↔ x ∈ K) := by
  induction reqs with
  | nil => intro K x _; simp [reportSeq]
  | cons r rest ih =>
    intro K x hx
    rw [reportSeq_cons]
    rw [ih _ x hx]
    by_cases h : x = r.1
    · subst h
      rw [inputReportKey_unsupported r.2 hx]
    · exact inputReportKey_mem_of_ne r.2 h

lemma reportSeq_true_nil (l : List Nat) :
    ∀ (K : Finset Nat), (∀ c ∈ l, c ∈ kbdSupported → c ∈ K) →
      (reportSeq K (l.map fun c => (c, true))).2 = [] := by
  induction l with
  | nil => intro K _; simp [reportSeq]
  | cons c rest ih =>
    intro K h
    rw [List.map_cons, reportSeq_cons]
    by_cases hs : c ∈ kbdSupported
    · rw [inputReportKey_true_skip hs (h c (List.mem_cons_self c rest) hs)]
      simpa using ih K (fun c' hc' => h c' (List.mem_cons_of_mem c hc'))
    · rw [inputReportKey_unsupported true hs]
      simpa using ih K (fun c' hc' => h c' (List.mem_cons_of_mem c hc'))

lemma reportSeq_nodup_mem (reqs : List (Nat × Bool)) :
    ∀ (K : Finset Nat) (k : Nat) (v : Bool), (reqs.map Prod.fst).Nodup →
      (KEvent.key k v ∈ (reportSeq K reqs).2 ↔
        (k, v) ∈ reqs ∧ k ∈ kbdSupported ∧ (if v = true then k ∉ K else k ∈ K)) := by
  induction reqs with
  | nil => intro K k v _; simp [reportSeq]
  | cons r rest ih =>
    rcases r with ⟨c, b⟩
    intro K k v hnd
    rw [List.map_cons] at hnd
    obtain ⟨hc, hnd'⟩ := List.nodup_cons.mp hnd
    rw [reportSeq_cons]
    dsimp only
    by_cases hkc : k = c
    · subst hkc
      have htail : ∀ (v' : Bool) (K' : Finset Nat),
          KEvent.key k v' ∉ (reportSeq K' rest).2 := by
        intro v' K' hmem
        rcases (ih K' k v' hnd').mp hmem with ⟨hmem', _⟩
        exact hc (List.mem_map.mpr ⟨(k, v'), hmem', rfl⟩)
      have hhead : ((k, v) ∈ (k, b) :: rest) ↔ v = b := by
        simp only [List.mem_cons, Prod.mk.injEq, true_and]
        constructor
        · rintro (rfl | hm)
          · rfl
          · exact absurd (List.mem_map.mpr ⟨(k, v), hm, rfl⟩) hc
        · rintro rfl; exact Or.inl rfl
      by_cases hs : k ∈ kbdSupported
      · cases b with
        | true =>
          by_cases hk : k ∈ K
          · rw [inputReportKey_true_skip hs hk]
            dsimp only
            rw [List.nil_append]
            constructor
            · intro hmem; exact absurd hmem (htail v K)
            · rintro ⟨hmem, -, hcond⟩
              rw [hhead] at hmem
              subst hmem
              simp at hcond
              exact absurd hk hcond
          · rw [inputReportKey_true_emit hs hk]
            dsimp only
            constructor
            · intro hmem
              rcases List.mem_append.mp hmem with hh | ht
              · rcases List.mem_singleton.mp hh with h
                rcases KEvent.key.injEq _ _ _ _ ▸ h with h'
                have hv : v = true := by
                  have := h
                  simp [KEvent.key.injEq] at this
                  exact this
                subst hv
                exact ⟨hhead.mpr rfl, hs, by simp [hk]⟩
              · exact absurd ht (htail v (insert k K))
            · rintro ⟨hmem, -, hcond⟩
              rw [hhead] at hmem
              subst hmem
              exact List.mem_append.mpr (Or.inl (List.mem_singleton.mpr rfl))
        | false =>
          by_cases hk : k ∈ K
          · rw [inputReportKey_false_emit hs hk]
            dsimp only
            constructor
            · intro hmem
              rcases List.mem_append.mp hmem with hh | ht
              · have hv : v = false := by
                  have := List.mem_singleton.mp hh
                  simp [KEvent.key.injEq] at this
                  exact this
                subst hv
                exact ⟨hhead.mpr rfl, hs, by simp [hk]⟩
              · exact absurd ht (htail v (K.erase k))
            · rintro ⟨hmem, -, hcond⟩
              rw [hhead] at hmem
              subst hmem
              exact List.mem_append.mpr (Or.inl (List.mem_singleton.mpr rfl))
          · rw [inputReportKey_false_skip hs hk]
            dsimp only
            rw [List.nil_append]
            constructor
            · intro hmem; exact absurd hmem (htail v K)
            · rintro ⟨hmem, -, hcond⟩
              rw [hhead] at hmem
              subst hmem
              simp at hcond
              exact absurd hcond hk
      · rw [inputReportKey_unsupported b hs]
        dsimp only
        rw [List.nil_append]
        constructor
        · intro hmem; exact absurd hmem (htail v K)
        · rintro ⟨-, hsup, -⟩
          exact absurd hsup hs
    · have hstep : KEvent.key k v ∉ (inputReportKey K c b).2 := by
        unfold inputReportKey
        split_ifs <;> simp [hkc]
      have hK1 : k ∈ (inputReportKey K c b).1 ↔ k ∈ K :=
        inputReportKey_mem_of_ne b hkc
      constructor
      · intro hmem
        rcases List.mem_append.mp hmem with hh | ht
        · exact absurd hh hstep
        · rcases (ih _ k v hnd').mp ht with ⟨hmem', hsup, hcond⟩
          refine ⟨List.mem_cons_of_mem _ hmem', hsup, ?_⟩
          cases v with
          | true => simp only [if_pos rfl] at hcond ⊢; exact fun h => hcond (hK1.mpr h)
          | false =>
            rw [if_neg Bool.false_ne_true] at hcond ⊢
            exact hK1.mp hcond
      · rintro ⟨hmem, hsup, hcond⟩
        rcases List.mem_cons.mp hmem with hh | hm
        · exact absurd (congrArg Prod.fst hh) hkc
        · refine List.mem_append.mpr (Or.inr ((ih _ k v hnd').mpr ⟨hm, hsup, ?_⟩))
          cases v with
          | true => simp only [if_pos rfl] at hcond ⊢; exact fun h => hcond (hK1.mp h)
          | false =>
            rw [if_neg Bool.false_ne_true] at hcond ⊢
            exact hK1.mpr hcond

lemma reportSeq_nodup_key (reqs : List (Nat × Bool)) :
    ∀ (K : Finset Nat) (x : Nat) (b : Bool), (reqs.map Prod.fst).Nodup →
      (x, b) ∈ reqs → x ∈ kbdSupported →
      (x ∈ (reportSeq K reqs).1 ↔ b = true) := by
  induction reqs with
  | nil => intro K x b _ hmem; simp at hmem
  | cons r rest ih =>
    rcases r with ⟨c, b0⟩
    intro K x b hnd hmem hsup
    rw [List.map_cons] at hnd
    obtain ⟨hc, hnd'⟩ := List.nodup_cons.mp hnd
    rw [reportSeq_cons]
    dsimp only
    rcases List.mem_cons.mp hmem with hh | hm
    · obtain ⟨rfl, rfl⟩ : x = c ∧ b = b0 := by
        constructor
        · exact congrArg Prod.fst hh
        · exact congrArg Prod.snd hh
      have hnotin : x ∉ rest.map Prod.fst := hc
      rw [reportSeq_key_not_req rest _ x hnotin]
      exact inputReportKey_mem_self b hsup
    · have hxc : x ≠ c := by
        rintro rfl
        exact hc (List.mem_map.mpr ⟨(x, b), hm, rfl⟩)
      rw [ih _ x b hnd' hm hsup]

lemma reportSeq_false_count_zero (l : List Nat) :
    ∀ (K : Finset Nat) (k : Nat), k ∉ K →
      (reportSeq K (l.map fun c => (c, false))).2.count (KEvent.key k false) = 0 := by
  intro K k hk
  refine List.count_eq_zero.mpr (fun hmem => ?_)
  exact hk ((reportSeq_false_mem l K k false).mp hmem).2.2.1

lemma reportSeq_false_count (l : List Nat) :
    ∀ (K : Finset Nat) (k : Nat),
      (reportSeq K (l.map fun c => (c, false))).2.count (KEvent.key k false) ≤ 1 := by
  induction l with
  | nil => intro K k; simp [reportSeq]
  | cons c rest ih =>
    intro K k
    rw [List.map_cons, reportSeq_cons]
    dsimp only
    by_cases hs : c ∈ kbdSupported
    · by_cases hk : c ∈ K
      · rw [inputReportKey_false_emit hs hk]
        dsimp only
        rw [List.count_append]
        by_cases hkc : k = c
        · subst hkc
          have h0 := reportSeq_false_count_zero rest (K.erase k) k (Finset.not_mem_erase k K)
          simp [h0]
        · have h1 : List.count (KEvent.key k false) [KEvent.key c false] = 0 :=
            List.count_eq_zero.mpr (by simp [hkc])
          rw [h1]
          simpa using ih (K.erase c) k
      · rw [inputReportKey_false_skip hs hk]
        dsimp only
        simpa using ih K k
    · rw [inputReportKey_unsupported false hs]
      dsimp only
      simpa using ih K k

lemma reportSeq_false_sublist (l : List Nat) :
    ∀ K : Finset Nat,
      List.Sublist (reportSeq K (l.map fun c => (scancodeOf c, false))).2
        (l.filterMap (fun c =>
          if scancodeOf c = 0 then none
          else some (KEvent.key (scancodeOf c) false))) := by
  induction l with
  | nil => intro K; simp [reportSeq]
  | cons c rest ih =>
    intro K
    rw [List.map_cons, reportSeq_cons]
    dsimp only
    by_cases h0 : scancodeOf c = 0
    · rw [h0, inputReportKey_unsupported false zero_not_supported]
      dsimp only
      rw [List.nil_append, List.filterMap_cons_none (by simp [h0])]
      exact ih K
    · by_cases hk : scancodeOf c ∈ K
      · rw [inputReportKey_false_emit (scancodeOf_mem_supported h0) hk]
        dsimp only
        simp only [List.filterMap_cons, if_neg h0, List.singleton_append]
        exact List.Sublist.cons₂ _ (ih (K.erase (scancodeOf c)))
      · rw [inputReportKey_false_skip (scancodeOf_mem_supported h0) hk]
        dsimp only
        rw [List.nil_append]
        simp only [List.filterMap_cons, if_neg h0]
        exact List.Sublist.cons _ (ih K)

/-! Characterizations of the request lists of the three keyboard loops. -/

lemma releaseReqs_eq (last keys : List Nat) :
    releaseReqs last keys =
      ((releaseAccesses last keys).map scancodeOf).map (fun k => (k, false)) := by
  rw [releaseReqs, List.map_map]
  rfl

lemma pressReqs_eq (keys : List Nat) :
    pressReqs keys = ((pressAccesses keys).map scancodeOf).map (fun k => (k, true)) := by
  rw [pressReqs, List.map_map]
  rfl

lemma stillPressed_eq_false {c : Nat} {keys : List Nat} :
    stillPressed c keys = false ↔ c ∉ keys := by
  rw [Bool.eq_false_iff]
  exact not_congr stillPressed_iff

lemma mem_relCodes {last keys : List Nat} {k : Nat} :
    k ∈ (releaseAccesses last keys).map scancodeOf ↔
      ∃ c ∈ last, c ∉ keys ∧ scancodeOf c = k := by
  simp [releaseAccesses, List.mem_map, List.mem_filter, stillPressed_eq_false]
  tauto

lemma mem_pressCodes {keys : List Nat} {k : Nat} :
    k ∈ (pressAccesses keys).map scancodeOf ↔
      ∃ c ∈ keys, (c < applespi_scancodes.length ∧ 0 < c) ∧ scancodeOf c = k := by
  simp [pressAccesses, List.mem_map, List.mem_filter]
  tauto

lemma relCodes_cases {last keys : List Nat} {k : Nat}
    (hb : ∀ c ∈ last, c < applespi_scancodes.length)
    (h : k ∈ (releaseAccesses last keys).map scancodeOf) : k = 0 ∨ k ∈ scKeys := by
  rcases mem_relCodes.mp h with ⟨c, hc, _, rfl⟩
  by_cases h0 : scancodeOf c = 0
  · exact Or.inl h0
  · exact Or.inr (scancodeOf_mem_scKeys (hb c hc) h0)

lemma pressCodes_cases {keys : List Nat} {k : Nat}
    (h : k ∈ (pressAccesses keys).map scancodeOf) : k = 0 ∨ k ∈ scKeys := by
  rcases mem_pressCodes.mp h with ⟨c, _, ⟨hlt, _⟩, rfl⟩
  by_cases h0 : scancodeOf c = 0
  · exact Or.inl h0
  · exact Or.inr (scancodeOf_mem_scKeys hlt h0)

lemma modReqs_fst (mods : Nat) : (modReqs mods).map Prod.fst = applespi_controlcodes := by
  simp only [modReqs, List.map_map]
  rfl

lemma modReqs_nodup (mods : Nat) : ((modReqs mods).map Prod.fst).Nodup := by
  rw [modReqs_fst]
  decide

lemma mem_modReqs {mods k : Nat} {v : Bool} :
    (k, v) ∈ modReqs mods ↔ ∃ i, i < 8 ∧ controlcodeOf i = k ∧ mods.testBit i = v := by
  simp only [modReqs, List.mem_map, List.mem_range, Prod.mk.injEq]

lemma mem_key0_sc {last : List Nat} {mPrev k : Nat} (hk : k ∈ scKeys) :
    k ∈ kbdKeys last ∪ modKeys mPrev ↔ ∃ c ∈ last, scancodeOf c = k := by
  rw [Finset.mem_union]
  constructor
  · rintro (h | h)
    · exact (mem_kbdKeys.mp h).1
    · exact absurd (modKeys_sub_ctlKeys h) (sc_disjoint_ctl k hk)
  · intro h
    exact Or.inl (mem_kbdKeys.mpr ⟨h, scKeys_nonzero k hk⟩)

lemma mem_key0_ctl {last : List Nat} {mPrev i : Nat} (hi : i < 8)
    (h0 : controlcodeOf i ≠ 0) :
    controlcodeOf i ∈ kbdKeys last ∪ modKeys mPrev ↔ mPrev.testBit i := by
  have hctl : controlcodeOf i ∈ ctlKeys := (ctl_values i hi).resolve_left h0
  rw [Finset.mem_union]
  constructor
  · rintro (h | h)
    · exact absurd hctl (sc_disjoint_ctl _ (kbdKeys_sub_scKeys h))
    · rcases mem_modKeys.mp h with ⟨⟨j, hj, hbit, hctlj⟩, _⟩
      have : j = i := ctl_inj j hj i hi (hctlj.trans rfl) (hctlj.symm ▸ h0)
      subst this
      exact hbit
  · intro hbit
    exact Or.inr (mem_modKeys.mpr ⟨⟨i, hi, hbit, rfl⟩, h0⟩)

lemma processKeyboard_events (st : KbState) (keys : List Nat) (mods : Nat) :
    (processKeyboard st keys mods).2 =
      (reportSeq st.key (releaseReqs st.last keys)).2 ++
        ((reportSeq (reportSeq st.key (releaseReqs st.last keys)).1 (pressReqs keys)).2 ++
          ((reportSeq (reportSeq (reportSeq st.key (releaseReqs st.last keys)).1
              (pressReqs keys)).1 (modReqs mods)).2 ++ [KEvent.syn])) := by
  simp [processKeyboard]

lemma processKeyboard_state (st : KbState) (keys : List Nat) (mods : Nat) :
    (processKeyboard st keys mods).1 =
      ⟨(reportSeq (reportSeq (reportSeq st.key (releaseReqs st.last keys)).1
          (pressReqs keys)).1 (modReqs mods)).1, keys⟩ := rfl

/-! Event characterizations for one processed keyboard frame, from a state
consistent with previously stored codes `last` and modifier byte `mPrev`. -/

lemma kbd_press_mem {key0 : Finset Nat} {last keys : List Nat} {mPrev mods : Nat}
    (hb : ∀ c ∈ last, c < applespi_scancodes.length)
    (hcons : key0 = kbdKeys last ∪ modKeys mPrev)
    {c : Nat} (hc : c < applespi_scancodes.length) (h0 : scancodeOf c ≠ 0) :
    KEvent.key (scancodeOf c) true ∈ (processKeyboard ⟨key0, last⟩ keys mods).2 ↔
      c ∈ keys ∧ c ∉ last := by
  subst hcons
  rw [processKeyboard_events]
  dsimp only
  rw [releaseReqs_eq, pressReqs_eq]
  simp only [List.mem_append]
  constructor
  · rintro (h1 | h2 | h3 | h4)
    · have := (reportSeq_false_mem _ _ _ _).mp h1
      exact absurd this.1 (by simp)
    · have h2' := (reportSeq_true_mem _ _ _ _).mp h2
      obtain ⟨-, -, hK1, hpress⟩ := h2'
      rcases mem_pressCodes.mp hpress with ⟨c', hc'in, ⟨hc'lt, -⟩, heq⟩
      have hcc : c' = c := sc_inj c' hc'lt c hc heq (heq.symm ▸ h0)
      subst hcc
      refine ⟨hc'in, fun hcl => ?_⟩
      rw [reportSeq_false_key] at hK1
      apply hK1
      refine ⟨(mem_key0_sc (scancodeOf_mem_scKeys hc h0)).mpr ⟨c', hcl, rfl⟩, ?_⟩
      rintro ⟨hrel, -⟩
      rcases mem_relCodes.mp hrel with ⟨c'', hc''l, hc''nk, heq'⟩
      have hcc'' : c'' = c' := sc_inj c'' (hb c'' hc''l) c' hc heq' (heq'.symm ▸ h0)
      subst hcc''
      exact hc''nk hc'in
    · have h3' := (reportSeq_nodup_mem _ _ _ _ (modReqs_nodup mods)).mp h3
      rcases mem_modReqs.mp h3'.1 with ⟨i, hi, hctl, -⟩
      have hscm := scancodeOf_mem_scKeys hc h0
      have hctlm : controlcodeOf i ∈ ctlKeys :=
        (ctl_values i hi).resolve_left (fun hz => h0 (hctl ▸ hz))
      exact absurd (hctl ▸ hctlm) (sc_disjoint_ctl _ hscm)
    · simp at h4
  · rintro ⟨hin, hout⟩
    refine Or.inr (Or.inl ((reportSeq_true_mem _ _ _ _).mpr
      ⟨rfl, scancodeOf_mem_supported h0, ?_, ?_⟩))
    · rw [reportSeq_false_key]
      rintro ⟨hK, -⟩
      rcases (mem_key0_sc (scancodeOf_mem_scKeys hc h0)).mp hK with ⟨c', hc', heq⟩
      have : c' = c := sc_inj c' (hb c' hc') c hc heq (heq.symm ▸ h0)
      subst this
      exact hout hc'
    · exact mem_pressCodes.mpr ⟨c, hin, ⟨hc, scancodeOf_pos_of_ne_zero h0⟩, rfl⟩

lemma kbd_release_mem {key0 : Finset Nat} {last keys : List Nat} {mPrev mods : Nat}
    (hb : ∀ c ∈ last, c < applespi_scancodes.length)
    (hcons : key0 = kbdKeys last ∪ modKeys mPrev)
    {c : Nat} (hc : c < applespi_scancodes.length) (h0 : scancodeOf c ≠ 0) :
    KEvent.key (scancodeOf c) false ∈ (processKeyboard ⟨key0, last⟩ keys mods).2 ↔
      c ∈ last ∧ c ∉ keys := by
  subst hcons
  rw [processKeyboard_events]
  dsimp only
  rw [releaseReqs_eq, pressReqs_eq]
  simp only [List.mem_append]
  constructor
  · rintro (h1 | h2 | h3 | h4)
    · have h1' := (reportSeq_false_mem _ _ _ _).mp h1
      obtain ⟨-, -, hK, hrel⟩ := h1'
      rcases mem_relCodes.mp hrel with ⟨c', hc'l, hc'nk, heq⟩
      have hcc : c' = c := sc_inj c' (hb c' hc'l) c hc heq (heq.symm ▸ h0)
      subst hcc
      exact ⟨hc'l, hc'nk⟩
    · have := (reportSeq_true_mem _ _ _ _).mp h2
      exact absurd this.1 (by simp)
    · have h3' := (reportSeq_nodup_mem _ _ _ _ (modReqs_nodup mods)).mp h3
      rcases mem_modReqs.mp h3'.1 with ⟨i, hi, hctl, -⟩
      have hscm := scancodeOf_mem_scKeys hc h0
      have hctlm : controlcodeOf i ∈ ctlKeys :=
        (ctl_values i hi).resolve_left (fun hz => h0 (hctl ▸ hz))
      exact absurd (hctl ▸ hctlm) (sc_disjoint_ctl _ hscm)
    · simp at h4
  · rintro ⟨hin, hout⟩
    refine Or.inl ((reportSeq_false_mem _ _ _ _).mpr
      ⟨rfl, scancodeOf_mem_supported h0, ?_, ?_⟩)
    · exact (mem_key0_sc (scancodeOf_mem_scKeys hc h0)).mpr ⟨c, hin, rfl⟩
    · exact mem_relCodes.mpr ⟨c, hin, hout, rfl⟩

lemma kbd_mod_mem {key0 : Finset Nat} {last keys : List Nat} {mPrev mods : Nat}
    (hb : ∀ c ∈ last, c < applespi_scancodes.length)
    (hcons : key0 = kbdKeys last ∪ modKeys mPrev)
    {i : Nat} (hi : i < 8) (h0 : controlcodeOf i ≠ 0) (v : Bool) :
    KEvent.key (controlcodeOf i) v ∈ (processKeyboard ⟨key0, last⟩ keys mods).2 ↔
      mods.testBit i = v ∧ mPrev.testBit i ≠ v := by
  subst hcons
  rw [processKeyboard_events]
  dsimp only
  rw [releaseReqs_eq, pressReqs_eq]
  simp only [List.mem_append]
  have hctlK : controlcodeOf i ∈ ctlKeys := (ctl_values i hi).resolve_left h0
  have hnotsc : controlcodeOf i ∉ scKeys := fun h => sc_disjoint_ctl _ h hctlK
  have hnotrel : controlcodeOf i ∉ (releaseAccesses last keys).map scancodeOf := fun h =>
    (relCodes_cases hb h).elim h0 hnotsc
  have hnotpress : controlcodeOf i ∉ (pressAccesses keys).map scancodeOf := fun h =>
    (pressCodes_cases h).elim h0 hnotsc
  set K0 := kbdKeys last ∪ modKeys mPrev with hK0v
  set K1 := (reportSeq K0
    (((releaseAccesses last keys).map scancodeOf).map (fun k => (k, false)))).1 with hK1v
  set K2 := (reportSeq K1
    (((pressAccesses keys).map scancodeOf).map (fun k => (k, true)))).1 with hK2v
  have hK1 : controlcodeOf i ∈ K1 ↔ mPrev.testBit i = true := by
    rw [hK1v, reportSeq_false_key]
    constructor
    · rintro ⟨h, -⟩
      exact (mem_key0_ctl hi h0).mp h
    · intro h
      exact ⟨(mem_key0_ctl hi h0).mpr h, fun hc => hnotrel hc.1⟩
  have hK2 : controlcodeOf i ∈ K2 ↔ mPrev.testBit i = true := by
    rw [hK2v, reportSeq_true_key, hK1]
    constructor
    · rintro (h | h)
      · exact h
      · exact absurd h.1 hnotpress
    · exact Or.inl
  constructor
  · rintro (h1 | h2 | h3 | h4)
    · have h1' := (reportSeq_false_mem _ _ _ _).mp h1
      exact absurd h1'.2.2.2 hnotrel
    · have h2' := (reportSeq_true_mem _ _ _ _).mp h2
      exact absurd h2'.2.2.2 hnotpress
    · have h3' := (reportSeq_nodup_mem _ _ _ _ (modReqs_nodup mods)).mp h3
      obtain ⟨hreq, -, hcond⟩ := h3'
      rcases mem_modReqs.mp hreq with ⟨j, hj, hctlj, hbitj⟩
      have hji : j = i := ctl_inj j hj i hi hctlj (hctlj.symm ▸ h0)
      subst hji
      refine ⟨hbitj, ?_⟩
      cases v with
      | true =>
        rw [if_pos rfl, hK2] at hcond
        simpa using hcond
      | false =>
        rw [if_neg Bool.false_ne_true, hK2] at hcond
        simp [hcond]
    · simp at h4
  · rintro ⟨hbit, hne⟩
    refine Or.inr (Or.inr (Or.inl ((reportSeq_nodup_mem _ _ _ _ (modReqs_nodup mods)).mpr
      ⟨mem_modReqs.mpr ⟨i, hi, rfl, hbit⟩, ctl_mem_supported i hi h0, ?_⟩)))
    cases v with
    | true =>
      rw [if_pos rfl, hK2]
      simpa using hne
    | false =>
      rw [if_neg Bool.false_ne_true, hK2]
      simpa using hne

lemma ctlKeys_nonzero : ∀ k ∈ ctlKeys, k ≠ 0 := by decide

lemma ctl_exists : ∀ k ∈ ctlKeys, ∃ i, i < 8 ∧ controlcodeOf i = k := by decide

lemma kbd_event_supported {st : KbState} {keys : List Nat} {mods : Nat} {k : Nat} {v : Bool}
    (h : KEvent.key k v ∈ (processKeyboard st keys mods).2) : k ∈ kbdSupported := by
  rw [processKeyboard_events] at h
  rw [releaseReqs_eq, pressReqs_eq] at h
  simp only [List.mem_append] at h
  rcases h with h1 | h2 | h3 | h4
  · exact ((reportSeq_false_mem _ _ _ _).mp h1).2.1
  · exact ((reportSeq_true_mem _ _ _ _).mp h2).2.1
  · exact ((reportSeq_nodup_mem _ _ _ _ (modReqs_nodup mods)).mp h3).2.1
  · simp at h4

lemma kbd_zero_no_event {st : KbState} {keys : List Nat} {mods : Nat} (v : Bool) :
    KEvent.key 0 v ∉ (processKeyboard st keys mods).2 :=
  fun h => zero_not_supported (kbd_event_supported h)

lemma kbd_press_count {key0 : Finset Nat} {last keys : List Nat} {mods : Nat}
    {c : Nat} (hc : c < applespi_scancodes.length) (h0 : scancodeOf c ≠ 0) :
    (processKeyboard ⟨key0, last⟩ keys mods).2.count (KEvent.key (scancodeOf c) true) ≤ 1 := by
  rw [processKeyboard_events]
  dsimp only
  rw [releaseReqs_eq, pressReqs_eq]
  rw [List.count_append, List.count_append, List.count_append]
  have h1 : (reportSeq key0
      (((releaseAccesses last keys).map scancodeOf).map (fun k => (k, false)))).2.count
        (KEvent.key (scancodeOf c) true) = 0 := by
    refine List.count_eq_zero.mpr (fun hmem => ?_)
    have := (reportSeq_false_mem _ _ _ _).mp hmem
    exact absurd this.1 (by simp)
  have h3 : ∀ K2, (reportSeq K2 (modReqs mods)).2.count (KEvent.key (scancodeOf c) true) = 0 := by
    intro K2
    refine List.count_eq_zero.mpr (fun hmem => ?_)
    have h' := (reportSeq_nodup_mem _ _ _ _ (modReqs_nodup mods)).mp hmem
    rcases mem_modReqs.mp h'.1 with ⟨i, hi, hctl, -⟩
    have hscm := scancodeOf_mem_scKeys hc h0
    have hctlm : controlcodeOf i ∈ ctlKeys :=
      (ctl_values i hi).resolve_left (fun hz => h0 (hctl ▸ hz))
    exact absurd (hctl ▸ hctlm) (sc_disjoint_ctl _ hscm)
  have h2 := reportSeq_true_count ((pressAccesses keys).map scancodeOf)
    (reportSeq key0
      (((releaseAccesses last keys).map scancodeOf).map (fun k => (k, false)))).1
    (scancodeOf c)
  have h4 : List.count (KEvent.key (scancodeOf c) true) [KEvent.syn] = 0 := by simp
  rw [h1, h3, h4]
  omega

lemma kbd_idem {key0 : Finset Nat} {last : List Nat} {mPrev : Nat}
    (hcons : key0 = kbdKeys last ∪ modKeys mPrev) :
    (processKeyboard ⟨key0, last⟩ last mPrev).2 = [KEvent.syn] := by
  subst hcons
  rw [processKeyboard_events]
  dsimp only
  have hrel : releaseAccesses last last = [] := by
    rw [releaseAccesses, List.filter_eq_nil_iff]
    intro c hc
    simp [stillPressed_iff.mpr hc]
  have hreq : releaseReqs last last = [] := by
    rw [releaseReqs, hrel]
    rfl
  rw [hreq]
  have hE1 : (reportSeq (kbdKeys last ∪ modKeys mPrev) ([] : List (Nat × Bool))).2 = [] := rfl
  have hK1 : (reportSeq (kbdKeys last ∪ modKeys mPrev) ([] : List (Nat × Bool))).1 =
      kbdKeys last ∪ modKeys mPrev := rfl
  rw [hE1, hK1]
  have hE2 : (reportSeq (kbdKeys last ∪ modKeys mPrev) (pressReqs last)).2 = [] := by
    rw [pressReqs_eq]
    refine reportSeq_true_nil _ _ (fun k hk hsup => ?_)
    have hk0 : k ≠ 0 := fun hz => zero_not_supported (hz ▸ hsup)
    rcases mem_pressCodes.mp hk with ⟨c, hcin, -, rfl⟩
    exact Finset.mem_union_left _ (mem_kbdKeys.mpr ⟨⟨c, hcin, rfl⟩, hk0⟩)
  rw [hE2]
  have hE3 : (reportSeq (reportSeq (kbdKeys last ∪ modKeys mPrev) (pressReqs last)).1
      (modReqs mPrev)).2 = [] := by
    set K2 := (reportSeq (kbdKeys last ∪ modKeys mPrev) (pressReqs last)).1 with hK2v
    have hK2 : ∀ x ∈ ctlKeys, (x ∈ K2 ↔ x ∈ kbdKeys last ∪ modKeys mPrev) := by
      intro x hx
      rw [hK2v, pressReqs_eq, reportSeq_true_key]
      constructor
      · rintro (h | h)
        · exact h
        · rcases pressCodes_cases h.1 with hz | hsc
          · exact absurd hz (ctlKeys_nonzero x hx)
          · exact absurd hsc (fun hs => sc_disjoint_ctl x hs hx)
      · exact Or.inl
    rcases List.eq_nil_or_concat (reportSeq K2 (modReqs mPrev)).2 with hnil | ⟨l', e, hcat⟩
    · exact hnil
    · exfalso
      have hmem : e ∈ (reportSeq K2 (modReqs mPrev)).2 := by
        rw [hcat]
        simp
      rcases reportSeq_events_shape _ _ e hmem with ⟨k, v, rfl⟩
      have h' := (reportSeq_nodup_mem _ _ _ _ (modReqs_nodup mPrev)).mp hmem
      obtain ⟨hreq', hsup, hcond⟩ := h'
      rcases mem_modReqs.mp hreq' with ⟨i, hi, hctl, hbit⟩
      have h0 : controlcodeOf i ≠ 0 := fun hz =>
        zero_not_supported ((hctl ▸ hz : k = 0) ▸ hsup)
      have hctlm : controlcodeOf i ∈ ctlKeys := (ctl_values i hi).resolve_left h0
      have hkK2 : k ∈ K2 ↔ mPrev.testBit i = true := by
        rw [← hctl]
        rw [hK2 _ hctlm]
        exact mem_key0_ctl hi h0
      cases v with
      | true =>
        rw [if_pos rfl] at hcond
        exact hcond (hkK2.mpr hbit)
      | false =>
        rw [if_neg Bool.false_ne_true] at hcond
        have := hkK2.mp hcond
        rw [hbit] at this
        exact Bool.false_ne_true this
  rw [hE3]
  rfl

lemma kbd_state_after {key0 : Finset Nat} {last keys : List Nat} {mPrev mods : Nat}
    (hcons : key0 = kbdKeys last ∪ modKeys mPrev) :
    (processKeyboard ⟨key0, last⟩ keys mods).1 = ⟨kbdKeys keys ∪ modKeys mods, keys⟩ := by
  subst hcons
  rw [processKeyboard_state]
  dsimp only
  simp only [KbState.mk.injEq]
  refine ⟨?_, trivial⟩
  rw [releaseReqs_eq, pressReqs_eq]
  ext x
  set K0 := kbdKeys last ∪ modKeys mPrev with hK0v
  set K1 := (reportSeq K0
    (((releaseAccesses last keys).map scancodeOf).map (fun k => (k, false)))).1 with hK1v
  set K2 := (reportSeq K1
    (((pressAccesses keys).map scancodeOf).map (fun k => (k, true)))).1 with hK2v
  by_cases hsup : x ∈ kbdSupported
  · rcases Finset.mem_union.mp hsup with hsc | hctl
    · have hx0 : x ≠ 0 := scKeys_nonzero x hsc
      have hnotctl : x ∉ ctlKeys := sc_disjoint_ctl x hsc
      have hxnotmod : x ∉ (modReqs mods).map Prod.fst := by
        rw [modReqs_fst]
        intro hmem
        by_cases hz : x = 0
        · exact hx0 hz
        · exact hnotctl (List.mem_toFinset.mpr (List.mem_filter.mpr ⟨hmem, by simp [hz]⟩))
      rw [reportSeq_key_not_req _ _ _ hxnotmod]
      rw [hK2v, reportSeq_true_key, hK1v, reportSeq_false_key, hK0v]
      simp only [mem_key0_sc hsc]
      constructor
      · rintro (⟨hK, hnrel⟩ | ⟨hPC, -⟩)
        · rcases hK with ⟨c, hcl, hsceq⟩
          by_cases hck : c ∈ keys
          · exact ⟨c, hck, hsceq⟩
          · exact absurd ⟨mem_relCodes.mpr ⟨c, hcl, hck, hsceq⟩, hsup⟩ hnrel
        · rcases mem_pressCodes.mp hPC with ⟨c, hck, -, hsceq⟩
          exact ⟨c, hck, hsceq⟩
      · rintro ⟨c, hck, hsceq⟩
        refine Or.inr ⟨mem_pressCodes.mpr ⟨c, hck, ⟨?_, ?_⟩, hsceq⟩, hsup⟩
        · exact scancodeOf_lt_of_ne_zero (hsceq.symm ▸ hx0)
        · exact scancodeOf_pos_of_ne_zero (hsceq.symm ▸ hx0)
    · obtain ⟨i, hi, rfl⟩ := ctl_exists x hctl
      have h0 : controlcodeOf i ≠ 0 := ctlKeys_nonzero _ hctl
      have hreqmem : (controlcodeOf i, mods.testBit i) ∈ modReqs mods :=
        mem_modReqs.mpr ⟨i, hi, rfl, rfl⟩
      rw [reportSeq_nodup_key _ _ _ _ (modReqs_nodup mods) hreqmem hsup]
      rw [mem_key0_ctl hi h0]
  · rw [reportSeq_key_not_supported _ _ _ hsup, hK2v,
      reportSeq_key_not_supported _ _ _ hsup, hK1v,
      reportSeq_key_not_supported _ _ _ hsup, hK0v]
    have hL : x ∉ kbdKeys last ∪ modKeys mPrev := fun h =>
      hsup ((Finset.mem_union.mp h).elim
        (fun h' => Finset.mem_union_left _ (kbdKeys_sub_scKeys h'))
        (fun h' => Finset.mem_union_right _ (modKeys_sub_ctlKeys h')))
    have hR : x ∉ kbdKeys keys ∪ modKeys mods := fun h =>
      hsup ((Finset.mem_union.mp h).elim
        (fun h' => Finset.mem_union_left _ (kbdKeys_sub_scKeys h'))
        (fun h' => Finset.mem_union_right _ (modKeys_sub_ctlKeys h')))
    simp [hL, hR]

lemma kbd_release_block (key0 : Finset Nat) (last keys : List Nat) (mods : Nat) :
    ∃ R rest, (processKeyboard ⟨key0, last⟩ keys mods).2 = R ++ rest ∧
      List.Sublist R ((releaseAccesses last keys).filterMap (fun c =>
        if scancodeOf c = 0 then none
        else some (KEvent.key (scancodeOf c) false))) ∧
      ∀ k ∈ scKeys, KEvent.key k false ∉ rest := by
  rw [processKeyboard_events]
  dsimp only
  refine ⟨_, _, rfl, ?_, ?_⟩
  · rw [releaseReqs]
    exact reportSeq_false_sublist (releaseAccesses last keys) key0
  · intro k hk hmem
    simp only [List.mem_append] at hmem
    rcases hmem with h2 | h3 | h4
    · rw [pressReqs_eq] at h2
      have := (reportSeq_true_mem _ _ _ _).mp h2
      exact absurd this.1 (by simp)
    · have h3' := (reportSeq_nodup_mem _ _ _ _ (modReqs_nodup mods)).mp h3
      rcases mem_modReqs.mp h3'.1 with ⟨i, hi, hctl, -⟩
      have h0 : controlcodeOf i ≠ 0 := fun hz => scKeys_nonzero k hk (hctl ▸ hz)
      have hctlm := (ctl_values i hi).resolve_left h0
      exact sc_disjoint_ctl k hk (hctl ▸ hctlm)
    · simp at h4

lemma kbd_release_count {key0 : Finset Nat} {last keys : List Nat} {mods : Nat}
    {c : Nat} (hc : c < applespi_scancodes.length) (h0 : scancodeOf c ≠ 0) :
    (processKeyboard ⟨key0, last⟩ keys mods).2.count (KEvent.key (scancodeOf c) false) ≤ 1 := by
  rw [processKeyboard_events]
  dsimp only
  rw [releaseReqs_eq, pressReqs_eq]
  rw [List.count_append, List.count_append, List.count_append]
  have h1 := reportSeq_false_count ((releaseAccesses last keys).map scancodeOf)
    key0 (scancodeOf c)
  have h2 : ∀ K1 : Finset Nat, (reportSeq K1
      (((pressAccesses keys).map scancodeOf).map (fun k => (k, true)))).2.count
        (KEvent.key (scancodeOf c) false) = 0 := by
    intro K1
    refine List.count_eq_zero.mpr (fun hmem => ?_)
    have := (reportSeq_true_mem _ _ _ _).mp hmem
    exact absurd this.1 (by simp)
  have h3 : ∀ K2 : Finset Nat, (reportSeq K2 (modReqs mods)).2.count
      (KEvent.key (scancodeOf c) false) = 0 := by
    intro K2
    refine List.count_eq_zero.mpr (fun hmem => ?_)
    have h' := (reportSeq_nodup_mem _ _ _ _ (modReqs_nodup mods)).mp hmem
    rcases mem_modReqs.mp h'.1 with ⟨i, hi, hctl, -⟩
    have hscm := scancodeOf_mem_scKeys hc h0
    have hctlm : controlcodeOf i ∈ ctlKeys :=
      (ctl_values i hi).resolve_left (fun hz => h0 (hctl ▸ hz))
    exact absurd (hctl ▸ hctlm) (sc_disjoint_ctl _ hscm)
  have h4 : List.count (KEvent.key (scancodeOf c) false) [KEvent.syn] = 0 := by simp
  rw [h2, h3, h4]
  omega

/-! Concrete 256-byte frames used as test vectors. -/

/-- Keyboard frame (tag 288 = bytes 0x20, 0x01) whose first key slot holds
the raw code 200, which is outside the 83-entry scancode table. -/
def frameKbd200 : List Nat :=
  (List.range 256).map (fun i =>
    if i = 0 then 32 else if i = 1 then 1 else if i = 19 then 200 else 0)

/-- Keyboard frame with all six key slots zero and no modifiers. -/
def frameKbdZero : List Nat :=
  (List.range 256).map (fun i => if i = 0 then 32 else if i = 1 then 1 else 0)

/-- Touchpad frame (tag 544 = bytes 0x20, 0x02) with the click byte set,
finger slot 0 fully zero (inactive) and finger slot 1 active with
touch_major 100 and abs_x 1000 (bytes 232, 3 little-endian). -/
def frameTouchMixed : List Nat :=
  (List.range 256).map (fun i =>
    if i = 0 then 32 else if i = 1 then 2 else if i = 17 then 1
    else if i = 94 then 232 else if i = 95 then 3
    else if i = 108 then 100 else 0)

/-- Touchpad frame with the click byte set and exactly two active fingers
(slots 0 and 1, touch_major 50 and 60), the other four slots zero. -/
def frameTouchTwo : List Nat :=
  (List.range 256).map (fun i =>
    if i = 0 then 32 else if i = 1 then 2 else if i = 17 then 1
    else if i = 66 then 10 else if i = 80 then 50
    else if i = 94 then 20 else if i = 108 then 60 else 0)

/-- A frame whose 16-bit tag (7 + 256*7 = 1799) matches none of the known
packet types. -/
def frameUnknown : List Nat := List.replicate 256 7

/-- C4 (code_bug): the press loop bounds-checks its table index, but the
release loop evaluates `applespi_scancodes[last_keys_pressed[i]]` with no
bounds check, and `last_keys_pressed` stores the raw bytes of the previous
frame unfiltered.  After processing a keyboard frame whose first key byte
is 200, a following all-zero keyboard frame makes the release loop read
the 83-entry table at index 200 — an out-of-bounds access, contradicting
the claim that every lookup stays within bounds and out-of-range codes are
treated as "no key". -/
theorem release_lookup_out_of_bounds :
    (applespi_got_data [] ⟨∅, [0, 0, 0, 0, 0, 0]⟩ frameKbd200).1.last =
        [200, 0, 0, 0, 0, 0] ∧
      200 ∈ kbdScancodeAccesses
          (applespi_got_data [] ⟨∅, [0, 0, 0, 0, 0, 0]⟩ frameKbd200).1.last
          (kbKeysOf frameKbdZero) ∧
      applespi_scancodes.length ≤ 200 := by decide

/-- C8 (counterexample): the claim says the poll-variant read performs the
same three-phase transmit/receive/receive sequence as the exchange; in the
source `applespi_sync_read` builds a message with a single 256-byte receive
and no transmit phase at all. -/
theorem poll_read_not_three_phase :
    applespi_sync_read_msg.length = 1 ∧
      applespi_sync_write_and_response_msg.length = 3 ∧
      (∀ t ∈ applespi_sync_read_msg, t.tx = false) ∧
      applespi_sync_read_msg ≠ applespi_sync_write_and_response_msg := by decide

/-- C8 (amended): `applespi_sync_write_and_response` chains, in one SPI
message, a 256-byte transmit from tx_buffer, a 4-byte receive into
rx_buffer and the real 256-byte receive into the same rx_buffer (so the
4-byte reply is overwritten, i.e. discarded), all at 400 kHz; the
poll-path `applespi_sync_read` instead issues a single 256-byte receive
with no transmit and no intermediate 4-byte read. -/
theorem spi_message_shapes :
    applespi_sync_write_and_response_msg.map (fun t => (t.tx, t.len)) =
        [(true, 256), (false, 4), (false, 256)] ∧
      (applespi_sync_write_and_response_msg.getD 0 default).buf = 0 ∧
      (applespi_sync_write_and_response_msg.getD 1 default).buf =
        (applespi_sync_write_and_response_msg.getD 2 default).buf ∧
      (∀ t ∈ applespi_sync_write_and_response_msg, t.speed_hz = 400000) ∧
      applespi_sync_read_msg.map (fun t => (t.tx, t.len)) = [(false, 256)] ∧
      (∀ t ∈ applespi_sync_read_msg, t.buf = 1 ∧ t.speed_hz = 400000) := by decide

/-- C9: a frame whose tag is not PACKET_KEYBOARD leaves the rollover state
(stored previous codes and keyboard key state) unchanged and emits no
keyboard events; a frame with the PACKET_NOTHING tag or an unknown tag
produces no activity at all. -/
theorem frame_kind_isolation (slots : List Int) (st : KbState) (buf : List Nat) :
    (packetType buf ≠ PACKET_KEYBOARD →
        (applespi_got_data slots st buf).1 = st ∧
          (applespi_got_data slots st buf).2.1 = []) ∧
      (packetType buf = PACKET_NOTHING ∨
          (packetType buf ≠ PACKET_KEYBOARD ∧ packetType buf ≠ PACKET_TOUCHPAD ∧
            packetType buf ≠ PACKET_NOTHING) →
        applespi_got_data slots st buf = (st, [], [])) := by
  refine ⟨?_, ?_⟩
  · intro hne
    unfold applespi_got_data
    by_cases h1 : packetType buf = PACKET_NOTHING
    · rw [if_pos h1]
      exact ⟨rfl, rfl⟩
    · rw [if_neg h1, if_neg hne]
      by_cases h3 : packetType buf = PACKET_TOUCHPAD
      · rw [if_pos h3]
        exact ⟨rfl, rfl⟩
      · rw [if_neg h3]
        exact ⟨rfl, rfl⟩
  · rintro (h | ⟨hk, ht, hn⟩)
    · unfold applespi_got_data
      rw [if_pos h]
    · unfold applespi_got_data
      rw [if_neg hn, if_neg hk, if_neg ht]

/-- Witness for the frame-kind isolation theorem at a concrete unknown-tag
frame and the driver's initial state. -/
theorem frame_kind_isolation_witness :
    packetType frameUnknown ≠ PACKET_KEYBOARD ∧
      applespi_got_data [] ⟨∅, [0, 0, 0, 0, 0, 0]⟩ frameUnknown =
        (⟨∅, [0, 0, 0, 0, 0, 0]⟩, [], []) :=
  ⟨by decide, (frame_kind_isolation [] ⟨∅, [0, 0, 0, 0, 0, 0]⟩ frameUnknown).2
    (Or.inr ⟨by decide, by decide, by decide⟩)⟩

/-- C10: processing one received frame is a function of the buffer
contents, the stored tracker state and the externally supplied slot
assignment: equal inputs give equal emitted event sequences and equal
resulting state. -/
theorem frame_processing_deterministic (slots : List Int) (st1 st2 : KbState)
    (buf1 buf2 : List Nat) (hbuf : buf1 = buf2) (hst : st1 = st2) :
    applespi_got_data slots st1 buf1 = applespi_got_data slots st2 buf2 := by
  subst hbuf
  subst hst
  rfl

/-- Witness for determinism at a concrete frame and state. -/
theorem frame_processing_deterministic_witness :
    applespi_got_data [] ⟨∅, [0, 0, 0, 0, 0, 0]⟩ frameKbdZero =
      applespi_got_data [] ⟨∅, [0, 0, 0, 0, 0, 0]⟩ frameKbdZero :=
  frame_processing_deterministic [] ⟨∅, [0, 0, 0, 0, 0, 0]⟩ ⟨∅, [0, 0, 0, 0, 0, 0]⟩
    frameKbdZero frameKbdZero rfl rfl

/-- C1: from a keyboard state consistent with the previously reported
codes `last` and modifier byte `mPrev` (all stored codes inside the table,
as required for the C array accesses to be defined — see the out-of-bounds
theorem), a key-press event for the semantic key of a mapped code `c` is
emitted exactly when `c` is nonzero, appears in the new snapshot and
appears nowhere in the previous codes; unmapped/zero slots never generate
events; a duplicated code yields at most one press event per transition;
and feeding the identical snapshot (codes and modifier byte) emits no
events beyond the sync marker. -/
theorem keyboard_press_policy (key0 : Finset Nat) (last keys : List Nat)
    (mPrev mods : Nat) (hlast6 : last.length = 6) (hkeys6 : keys.length = 6)
    (hb : ∀ c ∈ last, c < applespi_scancodes.length)
    (hcons : key0 = kbdKeys last ∪ modKeys mPrev) :
    (∀ c, c < applespi_scancodes.length → scancodeOf c ≠ 0 →
        (KEvent.key (scancodeOf c) true ∈ (processKeyboard ⟨key0, last⟩ keys mods).2 ↔
          c ≠ 0 ∧ c ∈ keys ∧ c ∉ last)) ∧
      (∀ v, KEvent.key 0 v ∉ (processKeyboard ⟨key0, last⟩ keys mods).2) ∧
      (∀ c, c < applespi_scancodes.length → scancodeOf c ≠ 0 →
        (processKeyboard ⟨key0, last⟩ keys mods).2.count (KEvent.key (scancodeOf c) true) ≤ 1) ∧
      (keys = last → mods = mPrev →
        (processKeyboard ⟨key0, last⟩ keys mods).2 = [KEvent.syn]) := by
  refine ⟨?_, ?_, ?_, ?_⟩
  · intro c hc h0
    rw [kbd_press_mem hb hcons hc h0]
    constructor
    · rintro ⟨h1, h2⟩
      exact ⟨Nat.pos_iff_ne_zero.mp (scancodeOf_pos_of_ne_zero h0), h1, h2⟩
    · rintro ⟨-, h1, h2⟩
      exact ⟨h1, h2⟩
  · exact fun v => kbd_zero_no_event v
  · intro c hc h0
    exact kbd_press_count hc h0
  · rintro rfl rfl
    exact kbd_idem hcons

/-- Witness for the press policy: previous codes {4,0,0,0,0,0}, new codes
{4,7,0,0,0,0} — code 7 (KEY_D = 32) is newly pressed. -/
theorem keyboard_press_policy_witness :
    KEvent.key 32 true ∈
      (processKeyboard ⟨kbdKeys [4, 0, 0, 0, 0, 0] ∪ modKeys 0, [4, 0, 0, 0, 0, 0]⟩
        [4, 7, 0, 0, 0, 0] 0).2 := by
  have h := keyboard_press_policy (kbdKeys [4, 0, 0, 0, 0, 0] ∪ modKeys 0)
    [4, 0, 0, 0, 0, 0] [4, 7, 0, 0, 0, 0] 0 0 rfl rfl (by decide) rfl
  exact (h.1 7 (by decide) (by decide)).mpr (by decide)

/-- C2: from a consistent keyboard state with the stored codes inside the
table (the domain on which the C release-loop accesses are defined — see
the out-of-bounds theorem), a key-release event for the semantic key of a
mapped code `c` is emitted exactly when `c` was previously reported and
appears nowhere in the new snapshot; the release events form a block at
the start of the cycle's event list that is a sublist of the per-slot
release list of the previous array (hence in previous-array order), before
any press events, with at most one release per semantic key even when a
stored code is duplicated; and three concrete cases hold: previous {4,5}
followed by all-zero emits exactly the two releases KEY_A, KEY_B, a full
6-key frame followed by all-zero emits exactly its six releases in
previous-array order, and a duplicated previous code {4,4} followed by
all-zero emits exactly one release for code 4. -/
theorem keyboard_release_policy (key0 : Finset Nat) (last keys : List Nat)
    (mPrev mods : Nat) (hlast6 : last.length = 6) (hkeys6 : keys.length = 6)
    (hb : ∀ c ∈ last, c < applespi_scancodes.length)
    (hcons : key0 = kbdKeys last ∪ modKeys mPrev) :
    (∀ c, c < applespi_scancodes.length → scancodeOf c ≠ 0 →
        (KEvent.key (scancodeOf c) false ∈ (processKeyboard ⟨key0, last⟩ keys mods).2 ↔
          c ∈ last ∧ c ∉ keys)) ∧
      (∃ R rest, (processKeyboard ⟨key0, last⟩ keys mods).2 = R ++ rest ∧
        List.Sublist R ((releaseAccesses last keys).filterMap (fun c =>
          if scancodeOf c = 0 then none
          else some (KEvent.key (scancodeOf c) false))) ∧
        ∀ k ∈ scKeys, KEvent.key k false ∉ rest) ∧
      (∀ c, c < applespi_scancodes.length → scancodeOf c ≠ 0 →
        (processKeyboard ⟨key0, last⟩ keys mods).2.count
          (KEvent.key (scancodeOf c) false) ≤ 1) ∧
      (processKeyboard ⟨kbdKeys [4, 5, 0, 0, 0, 0] ∪ modKeys 0, [4, 5, 0, 0, 0, 0]⟩
          [0, 0, 0, 0, 0, 0] 0).2 =
        [KEvent.key 30 false, KEvent.key 48 false, KEvent.syn] ∧
      (processKeyboard ⟨kbdKeys [4, 5, 6, 7, 8, 9] ∪ modKeys 0, [4, 5, 6, 7, 8, 9]⟩
          [0, 0, 0, 0, 0, 0] 0).2 =
        [KEvent.key 30 false, KEvent.key 48 false, KEvent.key 46 false,
          KEvent.key 32 false, KEvent.key 18 false, KEvent.key 33 false, KEvent.syn] ∧
      (processKeyboard ⟨kbdKeys [4, 4, 0, 0, 0, 0] ∪ modKeys 0, [4, 4, 0, 0, 0, 0]⟩
          [0, 0, 0, 0, 0, 0] 0).2 = [KEvent.key 30 false, KEvent.syn] := by
  refine ⟨?_, kbd_release_block key0 last keys mods, ?_, by decide, by decide, by decide⟩
  · intro c hc h0
    exact kbd_release_mem hb hcons hc h0
  · intro c hc h0
    exact kbd_release_count hc h0

/-- Witness for the release policy at the claim's concrete instance:
previous codes {4,5,0,0,0,0}, all-zero snapshot — exactly two release
events (KEY_A = 30, KEY_B = 48) and zero press events. -/
theorem keyboard_release_policy_witness :
    (processKeyboard ⟨kbdKeys [4, 5, 0, 0, 0, 0] ∪ modKeys 0, [4, 5, 0, 0, 0, 0]⟩
        [0, 0, 0, 0, 0, 0] 0).2 =
      [KEvent.key 30 false, KEvent.key 48 false, KEvent.syn] :=
  (keyboard_release_policy (kbdKeys [4, 5, 0, 0, 0, 0] ∪ modKeys 0) [4, 5, 0, 0, 0, 0]
    [0, 0, 0, 0, 0, 0] 0 0 rfl rfl (by decide) rfl).2.2.2.1

/-- C5 (counterexample): the claim asserts that for each of the 8 modifier
bits a modifier-press event is emitted exactly when the bit becomes set.
Bit 4 has control code 0 in `applespi_controlcodes` (no mapped key), so a
frame setting bit 4 (modifier byte 16) from the empty consistent state
emits no event at all — the event list is just the sync marker. -/
theorem modifier_bit4_no_event :
    Nat.testBit 16 4 = true ∧ Nat.testBit 0 4 = false ∧
      (processKeyboard ⟨kbdKeys [0, 0, 0, 0, 0, 0] ∪ modKeys 0, [0, 0, 0, 0, 0, 0]⟩
        [0, 0, 0, 0, 0, 0] 16).2 = [KEvent.syn] := by decide

/-- C5 (amended): for each of the modifier bits with a mapped control key
(all bits except bit 4, whose table entry is 0), a modifier-press event is
emitted exactly when the bit is set in the new snapshot and was not
previously reported set, and a modifier-release event exactly when it was
previously set and is now clear; and after processing, the tracker state
holds the new snapshot's codes, and its key state records exactly the new
codes' scancodes and the new modifier mask's control keys. -/
theorem modifier_policy_amended (key0 : Finset Nat) (last keys : List Nat)
    (mPrev mods : Nat) (hlast6 : last.length = 6) (hkeys6 : keys.length = 6)
    (hb : ∀ c ∈ last, c < applespi_scancodes.length)
    (hcons : key0 = kbdKeys last ∪ modKeys mPrev) :
    (∀ i, i < 8 → controlcodeOf i ≠ 0 →
        ((KEvent.key (controlcodeOf i) true ∈ (processKeyboard ⟨key0, last⟩ keys mods).2 ↔
            mods.testBit i = true ∧ mPrev.testBit i = false) ∧
          (KEvent.key (controlcodeOf i) false ∈ (processKeyboard ⟨key0, last⟩ keys mods).2 ↔
            mods.testBit i = false ∧ mPrev.testBit i = true))) ∧
      (processKeyboard ⟨key0, last⟩ keys mods).1 = ⟨kbdKeys keys ∪ modKeys mods, keys⟩ := by
  refine ⟨?_, kbd_state_after hcons⟩
  intro i hi h0
  constructor
  · rw [kbd_mod_mem hb hcons hi h0 true]
    constructor
    · rintro ⟨h1, h2⟩
      exact ⟨h1, Bool.eq_false_iff.mpr h2⟩
    · rintro ⟨h1, h2⟩
      exact ⟨h1, by simp [h2]⟩
  · rw [kbd_mod_mem hb hcons hi h0 false]
    constructor
    · rintro ⟨h1, h2⟩
      exact ⟨h1, Bool.ne_false_iff.mp h2⟩
    · rintro ⟨h1, h2⟩
      exact ⟨h1, by simp [h2]⟩

/-- Witness for the amended modifier policy: setting bit 1 (LEFTSHIFT =
42) from the empty consistent state emits a modifier-press event. -/
theorem modifier_policy_amended_witness :
    KEvent.key 42 true ∈
      (processKeyboard ⟨kbdKeys [0, 0, 0, 0, 0, 0] ∪ modKeys 0, [0, 0, 0, 0, 0, 0]⟩
        [0, 0, 0, 0, 0, 0] 2).2 := by
  have h := modifier_policy_amended (kbdKeys [0, 0, 0, 0, 0, 0] ∪ modKeys 0)
    [0, 0, 0, 0, 0, 0] [0, 0, 0, 0, 0, 0] 0 2 rfl rfl (by decide) rfl
  exact ((h.1 1 (by decide) (by decide)).1).mpr (by decide)

/-- C3 (code_bug): the contact-update loop of `report_tp_state` indexes the
raw finger array with the compacted index `i` (`&t->fingers[i]`), not the
original slot of the matched sample.  For a frame whose slot 0 is inactive
and slot 1 active (touch_major 100, abs_x 1000), the single emitted update
carries the position of finger 1 but the zeroed touch/tool axes and
orientation of the inactive finger 0, and no pressure is reported at all —
so the update does not carry the axes of the sample it positions.  The
frame-sync marker and the single button event do follow the updates. -/
theorem touch_update_mixes_samples :
    (∀ slots : List Int, report_tp_state slots frameTouchMixed =
        [TEvent.mtSlot (slots.getD 0 0), TEvent.toolFinger true,
          TEvent.abs ABS_MT_TOUCH_MAJOR 0, TEvent.abs ABS_MT_TOUCH_MINOR 0,
          TEvent.abs ABS_MT_WIDTH_MAJOR 0, TEvent.abs ABS_MT_WIDTH_MINOR 0,
          TEvent.abs ABS_MT_ORIENTATION 16384,
          TEvent.abs ABS_MT_POSITION_X 1000, TEvent.abs ABS_MT_POSITION_Y 6600,
          TEvent.syncFrame, TEvent.btnLeft 1, TEvent.syn]) ∧
      raw2int ((tpFingers frameTouchMixed).getD 1 default).touch_major = 100 ∧
      raw2int ((tpFingers frameTouchMixed).getD 0 default).touch_major = 0 := by
  refine ⟨fun slots => ?_, by decide, by decide⟩
  rfl

/-- Predicate marking the start of one contact-update block
(`input_mt_slot`). -/
def isContactStart : TEvent → Bool
  | TEvent.mtSlot _ => true
  | _ => false

/-- Predicate marking a BTN_LEFT report. -/
def isButtonEvent : TEvent → Bool
  | TEvent.btnLeft _ => true
  | _ => false

/-- Number of contact updates in a touchpad event list. -/
def countContacts (evs : List TEvent) : Nat := evs.countP isContactStart

lemma countP_flatten (p : TEvent → Bool) :
    ∀ L : List (List TEvent), (L.flatten).countP p = (L.map (fun l => l.countP p)).sum := by
  intro L
  induction L with
  | nil => simp
  | cons a t ih => simp [List.countP_append, ih]

lemma contacts_block (s : Int) (p : Int × Int) (f : TPFinger) :
    (reportFingerData s p f).countP isContactStart = 1 := rfl

lemma button_block (s : Int) (p : Int × Int) (f : TPFinger) :
    (reportFingerData s p f).countP isButtonEvent = 0 := rfl

lemma sum_const_one (n : Nat) : ((List.range n).map (fun _ => (1 : Nat))).sum = n := by
  induction n with
  | zero => rfl
  | succ n ih =>
    rw [List.range_succ, List.map_append, List.sum_append]
    simp [ih]

lemma report_tp_state_eq (slots : List Int) (buf : List Nat) :
    report_tp_state slots buf =
      ((List.range (((tpFingers buf).filter
          (fun f => !(raw2int f.touch_major == 0))).length)).map
        (fun i => reportFingerData (slots.getD i 0)
          ((((tpFingers buf).filter (fun f => !(raw2int f.touch_major == 0))).map
            (fun f => (raw2int f.abs_x, Y_MIN + Y_MAX - raw2int f.abs_y))).getD i (0, 0))
          ((tpFingers buf).getD i default))).flatten ++
      [TEvent.syncFrame, TEvent.btnLeft (tpClicked buf), TEvent.syn] := rfl

lemma countContacts_report (slots : List Int) (buf : List Nat) :
    countContacts (report_tp_state slots buf) =
      ((tpFingers buf).filter (fun f => !(raw2int f.touch_major == 0))).length := by
  rw [countContacts, report_tp_state_eq, List.countP_append, countP_flatten, List.map_map]
  have htail : List.countP isContactStart
      [TEvent.syncFrame, TEvent.btnLeft (tpClicked buf), TEvent.syn] = 0 := rfl
  rw [htail]
  have hmap : ∀ (n : Nat) (g : Nat → Int) (q : Nat → Int × Int) (r : Nat → TPFinger),
      ((List.range n).map
        ((fun l => l.countP isContactStart) ∘ fun i => reportFingerData (g i) (q i) (r i))) =
      (List.range n).map (fun _ => 1) := by
    intro n g q r
    refine List.map_congr_left (fun i _ => ?_)
    exact contacts_block _ _ _
  rw [hmap, sum_const_one]
  omega

lemma button_mem_report (slots : List Int) (buf : List Nat) :
    TEvent.btnLeft (tpClicked buf) ∈ report_tp_state slots buf := by
  rw [report_tp_state_eq]
  simp

lemma countButtons_report (slots : List Int) (buf : List Nat) :
    (report_tp_state slots buf).countP isButtonEvent = 1 := by
  rw [report_tp_state_eq, List.countP_append, countP_flatten, List.map_map]
  have htail : List.countP isButtonEvent
      [TEvent.syncFrame, TEvent.btnLeft (tpClicked buf), TEvent.syn] = 1 := rfl
  rw [htail]
  have hmap : ∀ (n : Nat) (g : Nat → Int) (q : Nat → Int × Int) (r : Nat → TPFinger),
      ((List.range n).map
        ((fun l => l.countP isButtonEvent) ∘ fun i => reportFingerData (g i) (q i) (r i))) =
      (List.range n).map (fun _ => 0) := by
    intro n g q r
    refine List.map_congr_left (fun i _ => ?_)
    exact button_block _ _ _
  rw [hmap]
  simp

/-- C7: a finger sample of a touchpad frame is treated as active exactly
when its touch_major field is nonzero — the number of emitted contact
updates equals the number of such samples, inactive samples are skipped
before slot assignment — the click byte is reported as exactly one button
event with the frame's value; concretely, the 256-byte frame with two
active and four zeroed samples yields exactly two contact updates and a
button event matching its click byte. -/
theorem touch_active_filter :
    (∀ (buf : List Nat) (slots : List Int),
        countContacts (report_tp_state slots buf) =
          ((tpFingers buf).filter (fun f => !(raw2int f.touch_major == 0))).length ∧
        TEvent.btnLeft (tpClicked buf) ∈ report_tp_state slots buf ∧
        (report_tp_state slots buf).countP isButtonEvent = 1) ∧
      (∀ slots : List Int,
        countContacts (report_tp_state slots frameTouchTwo) = 2 ∧
        ((tpFingers frameTouchTwo).filter
          (fun f => !(raw2int f.touch_major == 0))).length = 2 ∧
        tpClicked frameTouchTwo = 1 ∧
        TEvent.btnLeft 1 ∈ report_tp_state slots frameTouchTwo) := by
  refine ⟨fun buf slots =>
    ⟨countContacts_report slots buf, button_mem_report slots buf,
      countButtons_report slots buf⟩, fun slots => ⟨?_, by decide, by decide, ?_⟩⟩
  · rw [countContacts_report slots frameTouchTwo]
    decide
  · exact button_mem_report slots frameTouchTwo
